import Mathlib

/-!
Verification of the parallel batch-processing engine of the CMPE275-Mini1
repository (fire/population CSV data, three execution strategies).

The C++ sources are shallowly embedded as Lean definitions:

* `src/common/parallelStrategy.hpp` — `TaskQueue` / `WorkerQueue`
  (mutex-protected FIFO queue with a `finished` flag); the condition-variable
  discipline is modelled by a `PopResult` that distinguishes a blocked wait
  from closure, and by a `NotifyKind` recording whether `markFinished` calls
  `notify_all` (TaskQueue, line 69) or `notify_one` (WorkerQueue, line 117).
* `src/firedata/fireData.cpp` — record type, index build, exact and range
  queries under the three strategies (OpenMP, centralized queue, round-robin),
  and the average-concentration aggregation.  `double` values are modelled as
  rationals (the claims under study depend only on comparisons, sums and the
  zero-divisor guard, not on rounding).
* `src/common/csvParser.hpp` — `readFile` throws when a file cannot be
  opened; modelled as an `Except` value over an abstract file system.

Thread nondeterminism is modelled by explicit scheduling parameters: the
order in which OpenMP iterations commit their pushes (`iters`), which worker
pops each chunk of the shared queue (`assign`), and the order in which
workers enter the merge critical section (`order`).  Every theorem about a
parallel strategy quantifies over all well-formed schedules.
-/

namespace Mini1

/-- Fire sensor record, from `src/firedata/fireRecord.hpp` (the 13 CSV
columns; `double` fields modelled as `ℚ`, `int` fields as `ℤ`). -/
structure FireRecord where
  latitude : ℚ
  longitude : ℚ
  utc : String
  pollutantType : String
  concentration : ℚ
  unit : String
  rawConcentration : ℚ
  aqi : Int
  category : Int
  siteName : String
  agencyName : String
  aqsId : String
  fullAqsId : String
deriving DecidableEq, Repr, Inhabited

/-- Population record, from `src/PopulationData/populationRecord.hpp`. -/
structure PopulationRecord where
  countryName : String
  countryCode : String
  indicatorName : String
  indicatorCode : String
  yearlyValues : List ℚ
  region : String
  incomeGroup : String
  specialNotes : String
deriving DecidableEq, Repr, Inhabited

/-- Strategy enum from `src/common/parallelStrategy.hpp`. -/
inductive ParallelStrategy where
  | OPENMP
  | CENTRALIZED_QUEUE
  | ROUND_ROBIN
deriving DecidableEq, Repr

/- ===================================================================
   Task queues (`src/common/parallelStrategy.hpp`)
   =================================================================== -/

/-- Result of one `pop` call: the caller is still blocked in `cv.wait`
(wait condition `!tasks.empty() || finished` false), or the queue reported
closure (`return false`), or it handed out the head item. -/
inductive PopResult (T : Type) where
  | blocked : PopResult T
  | closed : PopResult T
  | item : T → PopResult T
deriving DecidableEq, Repr

/-- Whether a signal wakes one waiter (`cv.notify_one`) or all waiters
(`cv.notify_all`). -/
inductive NotifyKind where
  | one
  | all
deriving DecidableEq, Repr

/-- Number of blocked waiters woken by a signal of the given kind. -/
def notifiedCount : NotifyKind → Nat → Nat
  | .all, w => w
  | .one, w => min 1 w

/-- Shared FIFO queue of the centralized leader-worker pattern
(`TaskQueue`, parallelStrategy.hpp lines 32-77): a task list guarded by a
mutex plus a `finished` flag. -/
structure TaskQueue (T : Type) where
  tasks : List T
  finished : Bool
deriving DecidableEq, Repr

namespace TaskQueue

/-- Constructor `TaskQueue() : finished(false)` with an empty task list. -/
def empty {T : Type} : TaskQueue T := ⟨[], false⟩

/-- Operation `push` appends at the tail (lines 44-48). -/
def push {T : Type} (q : TaskQueue T) (t : T) : TaskQueue T :=
  { q with tasks := q.tasks ++ [t] }

/-- Operation `pop` (lines 51-63): wait until `!tasks.empty() || finished`; then
return `false` (closure) if empty, else remove and return the head. -/
def pop {T : Type} (q : TaskQueue T) : PopResult T × TaskQueue T :=
  if q.tasks.isEmpty && !q.finished then (.blocked, q)
  else
    match q.tasks with
    | [] => (.closed, q)
    | t :: rest => (.item t, { q with tasks := rest })

/-- Operation `markFinished` (lines 66-70) sets the flag. -/
def markFinished {T : Type} (q : TaskQueue T) : TaskQueue T :=
  { q with finished := true }

/-- Signalling: `TaskQueue::markFinished` wakes waiters with `cv.notify_all()`
(line 69). -/
def finishNotify : NotifyKind := .all

/-- One mutator invocation on the queue. -/
inductive Op (T : Type) where
  | push (t : T)
  | pop
  | markFinished

/-- Apply one operation (a `pop` transition keeps the state when the
caller blocks or sees closure). -/
def applyOp {T : Type} (q : TaskQueue T) : Op T → TaskQueue T
  | .push t => q.push t
  | .pop => q.pop.2
  | .markFinished => q.markFinished

/-- Run a sequence of queue operations. -/
def applyOps {T : Type} (q : TaskQueue T) (ops : List (Op T)) : TaskQueue T :=
  ops.foldl applyOp q

/-- Push a whole list of items in order (the leader loop,
fireData.cpp lines 204-206). -/
def pushAll {T : Type} (q : TaskQueue T) (ts : List T) : TaskQueue T :=
  ts.foldl push q

/-- Repeatedly pop until the queue blocks or closes, collecting the items
in the order they are handed out. -/
def drain {T : Type} : TaskQueue T → Nat → List T
  | _, 0 => []
  | q, fuel + 1 =>
    match q.pop with
    | (.item t, q') => t :: drain q' fuel
    | _ => []

end TaskQueue

/-- Per-worker FIFO queue of the round-robin pattern (`WorkerQueue`,
parallelStrategy.hpp lines 82-124); same state shape as `TaskQueue`. -/
structure WorkerQueue (T : Type) where
  tasks : List T
  finished : Bool
deriving DecidableEq, Repr

namespace WorkerQueue

/-- Constructor `WorkerQueue() : finished(false)` with an empty task list. -/
def empty {T : Type} : WorkerQueue T := ⟨[], false⟩

/-- Operation `push` appends at the tail (lines 94-98). -/
def push {T : Type} (q : WorkerQueue T) (t : T) : WorkerQueue T :=
  { q with tasks := q.tasks ++ [t] }

/-- Operation `pop` (lines 101-112), identical to `TaskQueue::pop`. -/
def pop {T : Type} (q : WorkerQueue T) : PopResult T × WorkerQueue T :=
  if q.tasks.isEmpty && !q.finished then (.blocked, q)
  else
    match q.tasks with
    | [] => (.closed, q)
    | t :: rest => (.item t, { q with tasks := rest })

/-- Operation `markFinished` (lines 114-118) sets the flag. -/
def markFinished {T : Type} (q : WorkerQueue T) : WorkerQueue T :=
  { q with finished := true }

/-- Signalling: `WorkerQueue::markFinished` wakes waiters with `cv.notify_one()`
(line 117), unlike `TaskQueue::markFinished`. -/
def finishNotify : NotifyKind := .one

end WorkerQueue

/- ===================================================================
   Indexed collection (`src/firedata/fireData.cpp`, fireData.hpp)
   =================================================================== -/

/-- Index entries inserted by the `buildIndexes` loop starting at position
`s`: one `(pollutantType, position)` pair per record (fireData.cpp lines
298-300; the multimap is modelled by the list of inserted entries). -/
def buildIndexEntriesFrom (s : Nat) : List FireRecord → List (String × Nat)
  | [] => []
  | r :: rest => (r.pollutantType, s) :: buildIndexEntriesFrom (s + 1) rest

/-- Entries of the pollutant index for a record list (positions from 0). -/
def buildIndexEntries (records : List FireRecord) : List (String × Nat) :=
  buildIndexEntriesFrom 0 records

/-- State of a `FireData` object (fireData.hpp lines 12-17): the record
vector, the pollutant multimap (as its entry list) and `recordCount`. -/
structure FireData where
  records : List FireRecord
  pollutantIndex : List (String × Nat)
  recordCount : Nat
deriving DecidableEq, Repr

namespace FireData

/-- Method `FireData::buildIndexes` (fireData.cpp lines 285-302): clear the index,
then insert one entry per record position. -/
def buildIndexes (d : FireData) : FireData :=
  { d with pollutantIndex := buildIndexEntries d.records }

/-- Method `FireData::queryByPollutant` (fireData.cpp lines 304-314):
`equal_range` over the multimap, then `records[it->second]` for each hit. -/
def queryByPollutant (d : FireData) (pollutantType : String) : List FireRecord :=
  (d.pollutantIndex.filter (fun e => e.1 == pollutantType)).filterMap
    (fun e => d.records[e.2]?)

/-- Method `FireData::clear` (fireData.cpp lines 1097-1102). -/
def clear (_d : FireData) : FireData :=
  { records := [], pollutantIndex := [], recordCount := 0 }

/-- Method `FireData::size` (fireData.hpp line 57). -/
def size (d : FireData) : Nat := d.recordCount

end FireData

/-- State of a `PopulationData` object (populationData.hpp lines 11-21). -/
structure PopulationData where
  records : List PopulationRecord
  countryIndex : List (String × Nat)
  regionIndex : List (String × Nat)
  incomeGroupIndex : List (String × Nat)
  recordCount : Nat
deriving DecidableEq, Repr

namespace PopulationData

/-- Method `PopulationData::queryByCountry` (populationData.cpp lines 344-352). -/
def queryByCountry (d : PopulationData) (countryCode : String) : List PopulationRecord :=
  (d.countryIndex.filter (fun e => e.1 == countryCode)).filterMap
    (fun e => d.records[e.2]?)

/-- Method `PopulationData::clear` (populationData.cpp lines 669-676). -/
def clear (_d : PopulationData) : PopulationData :=
  { records := [], countryIndex := [], regionIndex := [],
    incomeGroupIndex := [], recordCount := 0 }

/-- Method `PopulationData::size` (populationData.hpp line 55). -/
def size (d : PopulationData) : Nat := d.recordCount

end PopulationData

/- ===================================================================
   Chunked dispatch engine (shared shape of the CENTRALIZED_QUEUE and
   ROUND_ROBIN branches of every query in fireData.cpp)
   =================================================================== -/

/-- Chunk size heuristic `records.size() / (numWorkers * 4)`, clamped to
at least 1 (fireData.cpp lines 357-358 and analogues). -/
def chunkSizeOf (n numWorkers : Nat) : Nat :=
  if n / (numWorkers * 4) = 0 then 1 else n / (numWorkers * 4)

/-- The leader loop `for (start = 0; start < n; start += sz)` pushing
`(start, min(start + sz, n))` (fireData.cpp lines 386-389); `fuel` bounds
the iteration count (with `1 ≤ sz`, `n` iterations always suffice). -/
def mkChunksAux (n sz : Nat) : Nat → Nat → List (Nat × Nat)
  | 0, _ => []
  | fuel + 1, start =>
    if start < n then (start, min (start + sz) n) :: mkChunksAux n sz fuel (start + sz)
    else []

/-- All chunks pushed by the leader for `n` items and chunk size `sz`. -/
def mkChunks (n sz : Nat) : List (Nat × Nat) :=
  mkChunksAux n sz n 0

/-- Elements visited by the worker loop
`for (i = c.first; i < c.second && i < records.size(); ++i)` over one
chunk (fireData.cpp lines 366, 414 and analogues). -/
def chunkElems {α : Type} (records : List α) (c : Nat × Nat) : List α :=
  (records.drop c.1).take (c.2 - c.1)

/-- The sublist of `items` dispatched to worker `w` under the chunk-to-
worker map `assign`, in queue (FIFO) order.  For the centralized queue
`assign` records which worker happened to pop each chunk; for round-robin
it is `chunkIdx % numWorkers` (fireData.cpp lines 434-439). -/
def assignedTo {α : Type} (items : List α) (assign : Nat → Nat) (w : Nat) : List α :=
  (items.enum.filter (fun e => assign e.1 == w)).map (fun e => e.2)

/-- Item count of one chunk `(start, end)`. -/
def chunkItems (c : Nat × Nat) : Nat := c.2 - c.1

/-- Total item count of a chunk list. -/
def itemCount (cs : List (Nat × Nat)) : Nat := (cs.map chunkItems).sum

/-- Scheduling parameters that resolve the thread nondeterminism of one
batch operation: `numWorkers` (the value of `getOptimalThreadCount()`),
`assign` (which worker popped each centralized-queue chunk), `order` (the
order in which workers reach the merge critical section), and `iters`
(the order in which OpenMP iterations commit their critical-section
pushes). -/
structure Schedule where
  numWorkers : Nat
  assign : Nat → Nat
  order : List Nat
  iters : List Nat

/-- A schedule is well formed for `n` items when there is at least one
worker (`getOptimalThreadCount()` returns `hwThreads > 0 ? hwThreads : 4`),
every chunk is popped by an existing worker, every worker merges exactly
once, and every OpenMP iteration commits exactly once. -/
structure Schedule.Valid (sch : Schedule) (n : Nat) : Prop where
  workers_pos : 0 < sch.numWorkers
  assign_lt : ∀ i, sch.assign i < sch.numWorkers
  order_perm : sch.order.Perm (List.range sch.numWorkers)
  iters_perm : sch.iters.Perm (List.range n)

/-- Range predicate of `FireData::queryByValueRange`
(`concentration >= minValue && concentration <= maxValue`,
fireData.cpp line 332). -/
def matchRange (minValue maxValue : ℚ) (r : FireRecord) : Bool :=
  decide (minValue ≤ r.concentration) && decide (r.concentration ≤ maxValue)

/-- The contribution of loop iteration `i` to a parallel-for result: the
per-record contribution `g records[i]` when `i` is in range (the loops
never leave `[0, size)`), nothing otherwise. -/
def lookupStep {α β : Type} (records : List α) (g : α → List β) (i : Nat) : List β :=
  match records[i]? with
  | some r => g r
  | none => []

/-- OpenMP branch of a scan query (fireData.cpp lines 325-349): each
iteration `i` pushes `records[i]` under `omp critical` when the predicate
holds; `iters` is the global order of the critical sections (the serial
fallback is `iters = range n`). -/
def scanOMP {α : Type} (records : List α) (p : α → Bool) (iters : List Nat) : List α :=
  iters.flatMap (fun i => lookupStep records (fun r => if p r then [r] else []) i)

/-- Centralized-queue branch of a scan query (fireData.cpp lines 351-397):
chunks are pushed FIFO, each popped by worker `assign chunkIdx`, each
worker filters its chunks in order into a local vector and the locals are
concatenated in merge order. -/
def scanCQ {α : Type} (records : List α) (p : α → Bool) (numWorkers : Nat)
    (assign : Nat → Nat) (order : List Nat) : List α :=
  let chunks := mkChunks records.length (chunkSizeOf records.length numWorkers)
  order.flatMap (fun w =>
    (assignedTo chunks assign w).flatMap (fun c => (chunkElems records c).filter p))

/-- Round-robin branch (fireData.cpp lines 399-452): identical chunking,
chunk `i` assigned to worker `i % numWorkers`. -/
def scanRR {α : Type} (records : List α) (p : α → Bool) (numWorkers : Nat)
    (order : List Nat) : List α :=
  scanCQ records p numWorkers (fun i => i % numWorkers) order

/-- Method `FireData::queryByValueRange` (fireData.cpp lines 319-456), with the
thread nondeterminism of the chosen strategy resolved by `sch`. -/
def FireData.queryByValueRange (d : FireData) (minValue maxValue : ℚ)
    (strategy : ParallelStrategy) (sch : Schedule) : List FireRecord :=
  match strategy with
  | .OPENMP => scanOMP d.records (matchRange minValue maxValue) sch.iters
  | .CENTRALIZED_QUEUE =>
      scanCQ d.records (matchRange minValue maxValue) sch.numWorkers sch.assign sch.order
  | .ROUND_ROBIN =>
      scanRR d.records (matchRange minValue maxValue) sch.numWorkers sch.order

/-- The naive sequential scan the spec uses as reference point for the
completeness property (spec section 8, "a naive sequential scan"). -/
def seqScan {α : Type} (records : List α) (p : α → Bool) : List α :=
  records.filter p

/- ===================================================================
   Aggregation: `FireData::calculateAverageConcentrationByPollutant`
   (fireData.cpp lines 840-964)
   =================================================================== -/

/-- The contribution of one visited record to the `(sum, count)`
accumulator: its concentration when the pollutant type matches, nothing
otherwise (`if (records[i].getPollutantType() == pollutantType)
{ sum += ...; count++; }`, fireData.cpp lines 852-855). -/
def concIf (pollutantType : String) (r : FireRecord) : List ℚ :=
  if r.pollutantType == pollutantType then [r.concentration] else []

/-- The matching concentrations visited by one batch execution, in visit
order: OpenMP reduction order, or chunk order within each worker followed
by worker merge order for the queue strategies. -/
def avgVisited (records : List FireRecord) (pollutantType : String)
    (strategy : ParallelStrategy) (sch : Schedule) : List ℚ :=
  match strategy with
  | .OPENMP =>
      sch.iters.flatMap (fun i => lookupStep records (concIf pollutantType) i)
  | .CENTRALIZED_QUEUE =>
      let chunks := mkChunks records.length (chunkSizeOf records.length sch.numWorkers)
      sch.order.flatMap (fun w =>
        (assignedTo chunks sch.assign w).flatMap
          (fun c => (chunkElems records c).flatMap (concIf pollutantType)))
  | .ROUND_ROBIN =>
      let chunks := mkChunks records.length (chunkSizeOf records.length sch.numWorkers)
      sch.order.flatMap (fun w =>
        (assignedTo chunks (fun i => i % sch.numWorkers) w).flatMap
          (fun c => (chunkElems records c).flatMap (concIf pollutantType)))

/-- Method `FireData::calculateAverageConcentrationByPollutant` (fireData.cpp
lines 840-964): accumulate `(sum, count)` over the visited records under
the chosen strategy, then `count > 0 ? sum / count : 0.0` (line 963). -/
def FireData.calculateAverageConcentrationByPollutant (d : FireData)
    (pollutantType : String) (strategy : ParallelStrategy) (sch : Schedule) : ℚ :=
  let vals := avgVisited d.records pollutantType strategy sch
  let sum := vals.sum
  let count := vals.length
  if count > 0 then sum / count else 0

/- ===================================================================
   CSV loading (`src/common/csvParser.hpp`, fireData.cpp lines 153-213)
   =================================================================== -/

/-- Abstract file system: a file name maps to its parsed rows when the
file can be opened, `none` when `std::ifstream` fails to open it. -/
def Filesystem : Type := String → Option (List (List String))

/-- Method `CSVParser::readFile` (csvParser.hpp lines 45-75): returns the parsed
rows, or throws `std::runtime_error("Cannot open file: " + filename)`
when the stream cannot be opened (lines 49-53); the throw is modelled as
an `Except.error` carrying the exception message. -/
def readFile (fs : Filesystem) (filename : String) : Except String (List (List String)) :=
  match fs filename with
  | some rows => Except.ok rows
  | none => Except.error ("Cannot open file: " ++ filename)

/-- The per-row body of the worker loop (fireData.cpp lines 170-189):
rows with fewer than 13 columns are skipped (`if (row.size() < 13)
continue;`), other rows are mapped to a record by the field conversions of
lines 173-186, abstracted here as the caller-supplied mapper `mapRow`
(the spec places string-to-record mapping out of scope). -/
def parseRows (mapRow : List String → FireRecord) (rows : List (List String)) :
    List FireRecord :=
  rows.filterMap (fun row => if row.length < 13 then none else some (mapRow row))

/-- One worker of `FireData::loadWithCentralizedQueue` (fireData.cpp lines
162-195) processing the files it pops, in FIFO order: `readFile` each and
append the parsed records to the thread-local vector.  The worker installs
no handler, so a `readFile` exception propagates out of the lambda
(uncaught in the `std::thread`), which is modelled by the `Except` monad:
the first failing file aborts the worker and the files after it are never
processed. -/
def workerLoad (fs : Filesystem) (mapRow : List String → FireRecord) :
    List String → Except String (List FireRecord)
  | [] => Except.ok []
  | f :: rest =>
    match readFile fs f with
    | Except.error e => Except.error e
    | Except.ok rows =>
      match workerLoad fs mapRow rest with
      | Except.error e => Except.error e
      | Except.ok tl => Except.ok (parseRows mapRow rows ++ tl)

/-- Merge the workers' outcomes: all records concatenated in merge order,
unless some worker aborted with an exception. -/
def mergeWorkers : List (Except String (List FireRecord)) →
    Except String (List FireRecord)
  | [] => Except.ok []
  | l :: rest =>
    match l, mergeWorkers rest with
    | Except.ok xs, Except.ok ys => Except.ok (xs ++ ys)
    | Except.error e, _ => Except.error e
    | _, Except.error e => Except.error e

/-- Method `FireData::loadWithCentralizedQueue` (fireData.cpp lines 153-213):
the leader pushes every file name FIFO and marks the queue finished; each
worker `w` processes the files it popped (`assignedTo files assign w`)
and the local vectors are merged in the order the workers reach the
mutex. -/
def loadWithCentralizedQueue (fs : Filesystem) (mapRow : List String → FireRecord)
    (csvFiles : List String) (assign : Nat → Nat) (order : List Nat) :
    Except String (List FireRecord) :=
  mergeWorkers (order.map (fun w => workerLoad fs mapRow (assignedTo csvFiles assign w)))

/- ===================================================================
   Concrete sample data (used to instantiate the theorems)
   =================================================================== -/

/-- A fire record with the given pollutant type and concentration and
default-constructed remaining fields. -/
def sampleRecord (pt : String) (conc : ℚ) : FireRecord :=
  { latitude := 0, longitude := 0, utc := "", pollutantType := pt,
    concentration := conc, unit := "", rawConcentration := 0, aqi := 0,
    category := 0, siteName := "", agencyName := "", aqsId := "",
    fullAqsId := "" }

/-- A three-record collection with two pollutant types. -/
def sampleFireData : FireData :=
  { records := [sampleRecord "PM25" 3, sampleRecord "OZONE" 20, sampleRecord "PM25" 7],
    pollutantIndex := [], recordCount := 3 }

/-- A two-worker schedule: chunk `i` popped by worker `i % 2`, worker 1
merges first, OpenMP iteration 2 commits first. -/
def sampleSchedule : Schedule :=
  { numWorkers := 2, assign := fun i => i % 2, order := [1, 0], iters := [2, 0, 1] }

/-- A file system where `a.csv` and `c.csv` open with one 13-column row
each and every other name (in particular `b.csv`) fails to open. -/
def sampleFs : Filesystem := fun name =>
  if name = "a.csv" then some [List.replicate 13 "0"]
  else if name = "c.csv" then some [List.replicate 13 "1"]
  else none

/-- A trivial row-to-record mapper standing in for the field conversions
of fireData.cpp lines 173-186. -/
def constMapRow : List String → FireRecord := fun _ => sampleRecord "OZONE" 1

/- ===================================================================
   Core engine lemmas
   =================================================================== -/

theorem chunkSizeOf_pos (n numWorkers : Nat) : 1 ≤ chunkSizeOf n numWorkers := by
  unfold chunkSizeOf
  by_cases h : n / (numWorkers * 4) = 0
  · rw [if_pos h]
  · rw [if_neg h]
    exact Nat.pos_of_ne_zero h

theorem mkChunksAux_cover {α : Type} (records : List α) (sz : Nat) (hsz : 1 ≤ sz) :
    ∀ (fuel start : Nat), records.length - start ≤ fuel →
      (mkChunksAux records.length sz fuel start).flatMap (chunkElems records)
        = records.drop start := by
  intro fuel
  induction fuel with
  | zero =>
    intro start h
    have hdrop : records.drop start = [] := List.drop_eq_nil_of_le (by omega)
    simp [mkChunksAux, hdrop]
  | succ fuel ih =>
    intro start h
    by_cases hlt : start < records.length
    · have hch : chunkElems records (start, min (start + sz) records.length)
          = (records.drop start).take sz := by
        unfold chunkElems
        exact List.take_eq_take.mpr (by simp [List.length_drop]; omega)
      have hrest : records.drop (start + sz) = (records.drop start).drop sz :=
        (List.drop_drop sz start records).symm
      simp only [mkChunksAux, if_pos hlt, List.flatMap_cons, hch,
        ih (start + sz) (by omega), hrest, List.take_append_drop]
    · have hdrop : records.drop start = [] := List.drop_eq_nil_of_le (by omega)
      simp [mkChunksAux, hlt, hdrop]

theorem mkChunks_cover {α : Type} (records : List α) (sz : Nat) (hsz : 1 ≤ sz) :
    (mkChunks (records.length) sz).flatMap (chunkElems records) = records := by
  have := mkChunksAux_cover records sz hsz records.length 0 (by omega)
  simpa [mkChunks] using this

theorem flatMap_filter_cons_perm {α : Type} (f : α → Nat) (x : α) (t : List α) :
    ∀ (ws : List Nat), ws.Nodup → f x ∈ ws →
      (ws.flatMap (fun w => (x :: t).filter (fun y => f y == w))).Perm
        (x :: ws.flatMap (fun w => t.filter (fun y => f y == w))) := by
  intro ws
  induction ws with
  | nil => intro _ hmem; cases hmem
  | cons w0 ws ih =>
    intro hnd hmem
    have hnd' : ws.Nodup := hnd.of_cons
    have hw0 : w0 ∉ ws := (List.nodup_cons.mp hnd).1
    by_cases hx : f x = w0
    · have hcongr : ws.flatMap (fun w => (x :: t).filter (fun y => f y == w))
          = ws.flatMap (fun w => t.filter (fun y => f y == w)) := by
        refine List.flatMap_congr ?_
        intro w hw
        have hne : f x ≠ w := by
          intro heq
          exact hw0 (hx ▸ heq ▸ hw)
        simp [List.filter_cons, hne]
      have hxb : (f x == w0) = true := by simp [hx]
      have hhead : (x :: t).filter (fun y => f y == w0)
          = x :: t.filter (fun y => f y == w0) := by
        simp [List.filter_cons, hxb]
      have heq : (w0 :: ws).flatMap (fun w => (x :: t).filter (fun y => f y == w))
          = x :: (w0 :: ws).flatMap (fun w => t.filter (fun y => f y == w)) := by
        simp only [List.flatMap_cons, hhead, hcongr, List.cons_append]
      rw [heq]
    · have hmem' : f x ∈ ws := by
        rcases List.mem_cons.mp hmem with h | h
        · exact absurd h hx
        · exact h
      have hxb : (f x == w0) = false := by simp [hx]
      have hhead : (x :: t).filter (fun y => f y == w0)
          = t.filter (fun y => f y == w0) := by
        simp [List.filter_cons, hxb]
      simp only [List.flatMap_cons, hhead]
      refine ((ih hnd' hmem').append_left (t.filter (fun y => f y == w0))).trans ?_
      exact List.perm_middle

theorem partition_perm {α : Type} (f : α → Nat) :
    ∀ (l : List α) (ws : List Nat), ws.Nodup → (∀ x ∈ l, f x ∈ ws) →
      (ws.flatMap (fun w => l.filter (fun y => f y == w))).Perm l := by
  intro l
  induction l with
  | nil =>
    intro ws _ _
    have hnil : ∀ ws' : List Nat,
        ws'.flatMap (fun w => List.filter (fun y => f y == w) ([] : List α)) = [] := by
      intro ws'
      induction ws' with
      | nil => rfl
      | cons w ws' ihw => simp [List.flatMap_cons, ihw]
    rw [hnil ws]
  | cons x t ih =>
    intro ws hnd hmem
    refine (flatMap_filter_cons_perm f x t ws hnd (hmem x (List.mem_cons_self x t))).trans ?_
    exact (ih ws hnd (fun y hy => hmem y (List.mem_cons_of_mem x hy))).cons x

theorem assignedTo_partition_perm {α : Type} (items : List α) (assign : Nat → Nat)
    (k : Nat) (h : ∀ i, assign i < k) :
    ((List.range k).flatMap (assignedTo items assign)).Perm items := by
  unfold assignedTo
  rw [show (fun (e : Nat × α) => e.2) = Prod.snd from rfl, ← List.map_flatMap]
  have hperm := partition_perm (fun (e : Nat × α) => assign e.1) items.enum (List.range k)
    (List.nodup_range k) (fun x _ => List.mem_range.mpr (h x.1))
  have := hperm.map Prod.snd
  rwa [List.enum_map_snd] at this

theorem merged_flatMap_perm {α β : Type} (records : List α) (g : α → List β)
    (sz k : Nat) (assign : Nat → Nat) (order : List Nat)
    (hsz : 1 ≤ sz) (ha : ∀ i, assign i < k) (ho : order.Perm (List.range k)) :
    (order.flatMap (fun w => (assignedTo (mkChunks records.length sz) assign w).flatMap
        (fun c => (chunkElems records c).flatMap g))).Perm (records.flatMap g) := by
  have h1 : (order.flatMap (fun w => (assignedTo (mkChunks records.length sz) assign w).flatMap
      (fun c => (chunkElems records c).flatMap g))).Perm
      ((List.range k).flatMap (fun w => (assignedTo (mkChunks records.length sz) assign w).flatMap
      (fun c => (chunkElems records c).flatMap g))) :=
    ho.flatMap_right _
  have h2 : (List.range k).flatMap (fun w =>
        (assignedTo (mkChunks records.length sz) assign w).flatMap
          (fun c => (chunkElems records c).flatMap g))
      = ((List.range k).flatMap (assignedTo (mkChunks records.length sz) assign)).flatMap
          (fun c => (chunkElems records c).flatMap g) :=
    (List.flatMap_assoc (List.range k) (assignedTo (mkChunks records.length sz) assign)
      (fun c => (chunkElems records c).flatMap g)).symm
  have h3 : (((List.range k).flatMap (assignedTo (mkChunks records.length sz) assign)).flatMap
        (fun c => (chunkElems records c).flatMap g)).Perm
      ((mkChunks records.length sz).flatMap (fun c => (chunkElems records c).flatMap g)) :=
    (assignedTo_partition_perm (mkChunks records.length sz) assign k ha).flatMap_right _
  have h4 : (mkChunks records.length sz).flatMap (fun c => (chunkElems records c).flatMap g)
      = records.flatMap g := by
    rw [← List.flatMap_assoc, mkChunks_cover records sz hsz]
  refine h1.trans ?_
  rw [h2]
  refine h3.trans ?_
  rw [h4]

theorem filter_eq_flatMap {α : Type} (l : List α) (p : α → Bool) :
    l.filter p = l.flatMap (fun x => if p x then [x] else []) := by
  induction l with
  | nil => rfl
  | cons x t ih =>
    by_cases hx : p x <;> simp [List.filter_cons, List.flatMap_cons, hx, ih]

theorem range'_flatMap_lookup {α β : Type} (g : α → List β) (records : List α) :
    ∀ (l : List α) (s : Nat), records.drop s = l →
      ((List.range' s l.length).flatMap (lookupStep records g)) = l.flatMap g := by
  intro l
  induction l with
  | nil => intro s _; simp
  | cons x t ih =>
    intro s hdrop
    have hget : records[s]? = some x := by
      have h0 := List.getElem?_drop records s 0
      rw [hdrop] at h0
      simpa using h0.symm
    have hdropNew : records.drop (s + 1) = t := by
      have h2 : (records.drop s).drop 1 = records.drop (s + 1) := List.drop_drop 1 s records
      rw [hdrop] at h2
      simpa using h2.symm
    have hrange : List.range' s (t.length + 1) = s :: List.range' (s + 1) t.length :=
      List.range'_succ s t.length 1
    simp only [List.length_cons, hrange, List.flatMap_cons, lookupStep, hget,
      ih (s + 1) hdropNew]

theorem scanIters_perm {α β : Type} (g : α → List β) (records : List α)
    (iters : List Nat) (hi : iters.Perm (List.range records.length)) :
    (iters.flatMap (lookupStep records g)).Perm (records.flatMap g) := by
  refine (hi.flatMap_right _).trans ?_
  rw [List.range_eq_range' records.length]
  rw [range'_flatMap_lookup g records records 0 (List.drop_zero records)]

theorem flatMap_const_nil {α β : Type} (l : List α) :
    l.flatMap (fun _ => ([] : List β)) = [] := by
  induction l with
  | nil => rfl
  | cons x t ih => simp [List.flatMap_cons, ih]

/- ===================================================================
   Queue lemmas
   =================================================================== -/

theorem pushAll_tasks {T : Type} (ts : List T) :
    ∀ q : TaskQueue T, (q.pushAll ts).tasks = q.tasks ++ ts
      ∧ (q.pushAll ts).finished = q.finished := by
  induction ts with
  | nil => intro q; simp [TaskQueue.pushAll]
  | cons t ts ih =>
    intro q
    have := ih (q.push t)
    simpa [TaskQueue.pushAll, TaskQueue.push, List.append_assoc] using this

theorem drain_finished {T : Type} (ts : List T) :
    ∀ fuel : Nat, ts.length ≤ fuel →
      TaskQueue.drain ⟨ts, true⟩ fuel = ts := by
  induction ts with
  | nil =>
    intro fuel _
    cases fuel with
    | zero => rfl
    | succ fuel => rfl
  | cons t rest ih =>
    intro fuel hle
    cases fuel with
    | zero => simp at hle
    | succ fuel =>
      have : TaskQueue.pop (⟨t :: rest, true⟩ : TaskQueue T)
          = (PopResult.item t, ⟨rest, true⟩) := rfl
      simp [TaskQueue.drain, this, ih fuel (by simpa using hle)]

theorem pop_closed_iff {T : Type} (q : TaskQueue T) :
    q.pop.1 = PopResult.closed ↔ q.tasks = [] ∧ q.finished = true := by
  rcases q with ⟨tasks, fin⟩
  cases tasks with
  | nil =>
    cases fin with
    | false => simp [TaskQueue.pop]
    | true => simp [TaskQueue.pop]
  | cons t rest =>
    cases fin with
    | false => simp [TaskQueue.pop]
    | true => simp [TaskQueue.pop]

theorem applyOp_finished {T : Type} (q : TaskQueue T) (op : TaskQueue.Op T)
    (h : q.finished = true) : (q.applyOp op).finished = true := by
  cases op with
  | push t => simpa [TaskQueue.applyOp, TaskQueue.push] using h
  | markFinished => rfl
  | pop =>
    rcases q with ⟨tasks, fin⟩
    cases fin with
    | false => simp at h
    | true =>
      cases tasks with
      | nil => rfl
      | cons t rest => rfl

theorem applyOps_finished {T : Type} (ops : List (TaskQueue.Op T)) :
    ∀ q : TaskQueue T, q.finished = true → (q.applyOps ops).finished = true := by
  induction ops with
  | nil => intro q h; exact h
  | cons op ops ih =>
    intro q h
    exact ih (q.applyOp op) (applyOp_finished q op h)

/- ===================================================================
   Claim theorems
   =================================================================== -/

/-- C4: popping a `TaskQueue` returns items in FIFO push order whenever
one is available (draining a finished queue returns exactly the pushed
items, in push order); `pop` signals closure exactly when the queue is
empty and `markFinished` has run; and once the `finished` flag is true no
sequence of queue operations ever resets it, so a worker exits its pop
loop only on an empty, finished queue. -/
theorem taskQueue_fifo_closure_monotone {T : Type} (ts : List T) (fuel : Nat)
    (q : TaskQueue T) (ops : List (TaskQueue.Op T)) (hfuel : ts.length ≤ fuel) :
    (((TaskQueue.empty.pushAll ts).markFinished).drain fuel = ts)
    ∧ (q.pop.1 = PopResult.closed ↔ q.tasks = [] ∧ q.finished = true)
    ∧ (q.finished = true → (q.applyOps ops).finished = true) := by
  refine ⟨?_, pop_closed_iff q, applyOps_finished ops q⟩
  have h1 := (pushAll_tasks ts (TaskQueue.empty (T := T))).1
  rcases hpush : (TaskQueue.empty (T := T)).pushAll ts with ⟨tk, fin⟩
  rw [hpush] at h1
  simp only [TaskQueue.empty, List.nil_append] at h1
  show TaskQueue.drain ⟨tk, true⟩ fuel = ts
  rw [h1]
  exact drain_finished ts fuel hfuel

/-- Witness for C4 at a concrete queue: three pushed items drain back in
push order. -/
theorem taskQueue_fifo_closure_monotone_witness :
    ((((TaskQueue.empty (T := Nat)).pushAll [7, 8, 9]).markFinished).drain 3 = [7, 8, 9]) :=
  (taskQueue_fifo_closure_monotone [7, 8, 9] 3 TaskQueue.empty [] (by decide)).1

/-- C5 counterexample: `WorkerQueue::markFinished` signals with
`cv.notify_one()` (parallelStrategy.hpp line 117), so with two consumers
blocked on one partitioned queue only one is woken — not all of them, as
the claim asserts for both queue types. -/
theorem workerQueue_markFinished_not_notify_all :
    notifiedCount WorkerQueue.finishNotify 2 = 1
    ∧ ¬ notifiedCount WorkerQueue.finishNotify 2 = 2
    ∧ ¬ WorkerQueue.finishNotify = NotifyKind.all := by
  decide

/-- C5 amended: `TaskQueue::markFinished` wakes all blocked consumers;
`WorkerQueue::markFinished` wakes only one, which still wakes every
blocked consumer in the repository's usage where at most one worker ever
waits on a partitioned queue; in both queue types a woken `pop` on an
empty finished queue returns closure rather than blocking. -/
theorem markFinished_wakes_consumers {T : Type} (waiters : Nat) (hw : waiters ≤ 1) :
    (∀ n : Nat, notifiedCount TaskQueue.finishNotify n = n)
    ∧ notifiedCount WorkerQueue.finishNotify waiters = waiters
    ∧ ((TaskQueue.empty (T := T)).markFinished).pop.1 = PopResult.closed
    ∧ ((WorkerQueue.empty (T := T)).markFinished).pop.1 = PopResult.closed := by
  refine ⟨fun n => rfl, ?_, rfl, rfl⟩
  cases waiters with
  | zero => rfl
  | succ n =>
    cases n with
    | zero => rfl
    | succ m => omega

/-- Witness for C5 amended with one blocked consumer on a `Nat` queue. -/
theorem markFinished_wakes_consumers_witness :
    notifiedCount WorkerQueue.finishNotify 1 = 1 :=
  (markFinished_wakes_consumers (T := Nat) 1 (by decide)).2.1

/-- C7: `buildIndexes` is idempotent — a second call on the unchanged
record list produces a state with identical index contents (here proved
as full state equality, which implies set equality of the entries). -/
theorem buildIndexes_idempotent (d : FireData) :
    (d.buildIndexes).buildIndexes = d.buildIndexes := rfl

/-- C9: after `clear()` the record list, every secondary index and the
record count are empty/zero in the resulting state (one atomic transition
of the model, matching the caller-side view in the source's single-owner
discipline), and every subsequent exact-match query returns an empty
list; this holds for both `FireData` and `PopulationData`. -/
theorem clear_empties_everything (d : FireData) (dp : PopulationData) :
    (d.clear).records = [] ∧ (d.clear).pollutantIndex = []
    ∧ (d.clear).size = 0
    ∧ (∀ k, (d.clear).queryByPollutant k = [])
    ∧ (dp.clear).records = [] ∧ (dp.clear).countryIndex = []
    ∧ (dp.clear).regionIndex = [] ∧ (dp.clear).incomeGroupIndex = []
    ∧ (dp.clear).size = 0
    ∧ (∀ k, (dp.clear).queryByCountry k = []) :=
  ⟨rfl, rfl, rfl, fun _ => rfl, rfl, rfl, rfl, rfl, rfl, fun _ => rfl⟩

/- ===================================================================
   Index lemmas (C3)
   =================================================================== -/

theorem buildIndexEntriesFrom_snd_ge (l : List FireRecord) :
    ∀ (s : Nat) (k : String) (j : Nat), (k, j) ∈ buildIndexEntriesFrom s l → s ≤ j := by
  induction l with
  | nil => intro s k j h; cases h
  | cons r rest ih =>
    intro s k j h
    rcases List.mem_cons.mp h with h | h
    · have hj : j = s := by simpa using congrArg Prod.snd h
      omega
    · have := ih (s + 1) k j h
      omega

theorem count_buildIndexEntriesFrom (l : List FireRecord) :
    ∀ (s i : Nat) (h : i < l.length),
      (buildIndexEntriesFrom s l).count ((l.get ⟨i, h⟩).pollutantType, s + i) = 1 := by
  induction l with
  | nil => intro s i h; simp at h
  | cons r rest ih =>
    intro s i h
    cases i with
    | zero =>
      have htail : (r.pollutantType, s + 0) ∉ buildIndexEntriesFrom (s + 1) rest := by
        intro hmem
        have := buildIndexEntriesFrom_snd_ge rest (s + 1) r.pollutantType (s + 0) hmem
        omega
      show ((r.pollutantType, s) :: buildIndexEntriesFrom (s + 1) rest).count
          (r.pollutantType, s + 0) = 1
      have hs : s + 0 = s := rfl
      rw [hs, List.count_cons_self, List.count_eq_zero.mpr (hs ▸ htail)]
    | succ i' =>
      have h' : i' < rest.length := Nat.lt_of_succ_lt_succ h
      have hne : ((rest.get ⟨i', h'⟩).pollutantType, s + (i' + 1)) ≠ (r.pollutantType, s) := by
        intro heq
        have h2 : s + (i' + 1) = s := congrArg Prod.snd heq
        omega
      show ((r.pollutantType, s) :: buildIndexEntriesFrom (s + 1) rest).count
          ((rest.get ⟨i', h'⟩).pollutantType, s + (i' + 1)) = 1
      rw [List.count_cons_of_ne hne]
      have harith : s + (i' + 1) = (s + 1) + i' := by omega
      rw [harith]
      exact ih (s + 1) i' h'

theorem mem_buildIndexEntriesFrom_key (l : List FireRecord) :
    ∀ (s : Nat) (k : String) (j : Nat), (k, j) ∈ buildIndexEntriesFrom s l →
      ∃ r ∈ l, r.pollutantType = k := by
  induction l with
  | nil => intro s k j h; cases h
  | cons r rest ih =>
    intro s k j h
    rcases List.mem_cons.mp h with h | h
    · have hk : r.pollutantType = k := by
        have := congrArg Prod.fst h
        simpa using this.symm
      exact ⟨r, List.mem_cons_self r rest, hk⟩
    · rcases ih (s + 1) k j h with ⟨r', hr', hk'⟩
      exact ⟨r', List.mem_cons_of_mem r hr', hk'⟩

/-- C3: after `buildIndexes`, the pollutant index holds the entry
`(record.pollutantType, p)` for the record at position `p` exactly once;
`queryByPollutant` with that record's own pollutant type returns a list
containing the record; and `queryByPollutant` with a key carried by no
record returns the empty list. -/
theorem buildIndexes_index_correct (d : FireData) (p : Nat)
    (h : p < d.records.length) :
    ((d.buildIndexes).pollutantIndex.count
        ((d.records.get ⟨p, h⟩).pollutantType, p) = 1)
    ∧ d.records.get ⟨p, h⟩ ∈
        (d.buildIndexes).queryByPollutant ((d.records.get ⟨p, h⟩).pollutantType)
    ∧ (∀ k, (∀ r ∈ d.records, ¬ r.pollutantType = k) →
        (d.buildIndexes).queryByPollutant k = []) := by
  have hcount0 := count_buildIndexEntriesFrom d.records 0 p h
  have hzero : (0 : Nat) + p = p := by omega
  rw [hzero] at hcount0
  refine ⟨?_, ?_, ?_⟩
  · show (buildIndexEntriesFrom 0 d.records).count
        ((d.records.get ⟨p, h⟩).pollutantType, p) = 1
    exact hcount0
  · have hmem : ((d.records.get ⟨p, h⟩).pollutantType, p)
        ∈ buildIndexEntriesFrom 0 d.records := by
      by_contra hnot
      have h0 := List.count_eq_zero.mpr hnot
      exact absurd (h0.symm.trans hcount0) (by decide)
    show d.records.get ⟨p, h⟩ ∈
      ((buildIndexEntriesFrom 0 d.records).filter
        (fun e => e.1 == (d.records.get ⟨p, h⟩).pollutantType)).filterMap
        (fun e => d.records[e.2]?)
    refine List.mem_filterMap.mpr ⟨((d.records.get ⟨p, h⟩).pollutantType, p), ?_, ?_⟩
    · exact List.mem_filter.mpr ⟨hmem, by simp⟩
    · exact List.getElem?_eq_getElem h
  · intro k hk
    have hfilter : (buildIndexEntriesFrom 0 d.records).filter (fun e => e.1 == k) = [] := by
      rw [List.filter_eq_nil_iff]
      intro e he
      rcases e with ⟨k', j⟩
      rcases mem_buildIndexEntriesFrom_key d.records 0 k' j he with ⟨r, hr, hrt⟩
      have hkk : ¬ k' = k := fun hkk => (hk r hr) (hrt.trans hkk)
      simpa using hkk
    show ((buildIndexEntriesFrom 0 d.records).filter (fun e => e.1 == k)).filterMap
        (fun e => d.records[e.2]?) = []
    rw [hfilter]
    rfl

/-- Witness for C3 at position 0 of the sample collection. -/
theorem buildIndexes_index_correct_witness :
    (sampleFireData.buildIndexes).pollutantIndex.count
      ((sampleFireData.records.get ⟨0, by decide⟩).pollutantType, 0) = 1 :=
  (buildIndexes_index_correct sampleFireData 0 (by decide)).1

/- ===================================================================
   C1: strategy-independent query completeness
   =================================================================== -/

/-- C1: for every record collection, every value-range query and every
well-formed schedule of any of the three strategies, `queryByValueRange`
returns a permutation of (hence the same multiset and set as) the naive
sequential scan with the same predicate; the order itself depends on the
schedule and is unspecified. -/
theorem queryByValueRange_matches_seq_scan (d : FireData) (minValue maxValue : ℚ)
    (strategy : ParallelStrategy) (sch : Schedule)
    (hv : sch.Valid d.records.length) :
    (d.queryByValueRange minValue maxValue strategy sch).Perm
      (seqScan d.records (matchRange minValue maxValue)) := by
  have hfilt : d.records.filter (matchRange minValue maxValue)
      = d.records.flatMap
          (fun r => if matchRange minValue maxValue r then [r] else []) :=
    filter_eq_flatMap _ _
  have hbody : ∀ c : Nat × Nat,
      (chunkElems d.records c).filter (matchRange minValue maxValue)
        = (chunkElems d.records c).flatMap
            (fun r => if matchRange minValue maxValue r then [r] else []) :=
    fun c => filter_eq_flatMap _ _
  cases strategy with
  | OPENMP =>
    have h := scanIters_perm
      (fun r => if matchRange minValue maxValue r then [r] else [])
      d.records sch.iters hv.iters_perm
    rw [← hfilt] at h
    exact h
  | CENTRALIZED_QUEUE =>
    have h := merged_flatMap_perm d.records
      (fun r => if matchRange minValue maxValue r then [r] else [])
      (chunkSizeOf d.records.length sch.numWorkers) sch.numWorkers
      sch.assign sch.order (chunkSizeOf_pos _ _) hv.assign_lt hv.order_perm
    rw [← hfilt] at h
    show (scanCQ d.records (matchRange minValue maxValue) sch.numWorkers
      sch.assign sch.order).Perm (seqScan d.records (matchRange minValue maxValue))
    unfold scanCQ
    simp only [hbody]
    exact h
  | ROUND_ROBIN =>
    have h := merged_flatMap_perm d.records
      (fun r => if matchRange minValue maxValue r then [r] else [])
      (chunkSizeOf d.records.length sch.numWorkers) sch.numWorkers
      (fun i => i % sch.numWorkers) sch.order (chunkSizeOf_pos _ _)
      (fun i => Nat.mod_lt i hv.workers_pos) hv.order_perm
    rw [← hfilt] at h
    show (scanRR d.records (matchRange minValue maxValue) sch.numWorkers
      sch.order).Perm (seqScan d.records (matchRange minValue maxValue))
    unfold scanRR scanCQ
    simp only [hbody]
    exact h

/-- Witness for C1 on the sample collection under the two-worker
centralized-queue schedule. -/
theorem queryByValueRange_matches_seq_scan_witness :
    (sampleFireData.queryByValueRange 1 10 ParallelStrategy.CENTRALIZED_QUEUE
      sampleSchedule).Perm
      (seqScan sampleFireData.records (matchRange 1 10)) :=
  queryByValueRange_matches_seq_scan sampleFireData 1 10
    ParallelStrategy.CENTRALIZED_QUEUE sampleSchedule
    ⟨by decide, fun i => Nat.mod_lt i (by decide), by decide, by decide⟩

/- ===================================================================
   C6: round-robin chunk assignment
   =================================================================== -/

/-- C6 counterexample: with 3 chunks of sizes 2, 2, 1 and 2 workers,
worker 0 receives chunks 0 and 2 as claimed, but that is 3 items (not 5)
and the total across both workers is 5 (not 7). -/
theorem roundRobin_scenario_counterexample :
    assignedTo [(0, 2), (2, 4), (4, 5)] (fun i => i % 2) 0 = [(0, 2), (4, 5)]
    ∧ itemCount (assignedTo [(0, 2), (2, 4), (4, 5)] (fun i => i % 2) 0) = 3
    ∧ ¬ itemCount (assignedTo [(0, 2), (2, 4), (4, 5)] (fun i => i % 2) 0) = 5
    ∧ itemCount [(0, 2), (2, 4), (4, 5)] = 5
    ∧ ¬ itemCount [(0, 2), (2, 4), (4, 5)] = 7 := by
  decide

theorem mem_assignedTo_self {α : Type} (cs : List α) (w : Nat) (i : Nat)
    (hi : i < cs.length) :
    cs.get ⟨i, hi⟩ ∈ assignedTo cs (fun j => j % w) (i % w) := by
  unfold assignedTo
  refine List.mem_map.mpr ⟨(i, cs.get ⟨i, hi⟩), ?_, rfl⟩
  refine List.mem_filter.mpr ⟨?_, by simp⟩
  have hlen : i < cs.enum.length := by
    rw [List.enum_length]
    exact hi
  have hg := List.getElem_enum cs i hlen
  have := List.getElem_mem hlen
  rw [hg] at this
  exact this

theorem itemCount_partition (cs : List (Nat × Nat)) (w : Nat) (hw : 0 < w) :
    ((List.range w).map
      (fun k => itemCount (assignedTo cs (fun i => i % w) k))).sum = itemCount cs := by
  have hperm := assignedTo_partition_perm cs (fun i => i % w) w
    (fun i => Nat.mod_lt i hw)
  have hsum := (hperm.map chunkItems).sum_eq
  rw [List.map_flatMap] at hsum
  unfold itemCount
  rw [← hsum]
  rw [List.flatMap_def, List.sum_flatten, List.map_map]
  rfl

/-- C6 amended: chunk `k` is dispatched to worker `k % workerCount` and
the per-worker item counts sum to the pre-split total; in the concrete
scenario of 3 chunks of sizes 2, 2, 1 and 2 workers, worker 0 receives
chunks 0 and 2 (3 items), worker 1 receives chunk 1 (2 items), and
3 + 2 = 5 equals the item count before the split. -/
theorem roundRobin_assignment (cs : List (Nat × Nat)) (w : Nat) (hw : 0 < w) :
    (∀ i (hi : i < cs.length),
      cs.get ⟨i, hi⟩ ∈ assignedTo cs (fun j => j % w) (i % w))
    ∧ ((List.range w).map
        (fun k => itemCount (assignedTo cs (fun i => i % w) k))).sum = itemCount cs
    ∧ assignedTo [(0, 2), (2, 4), (4, 5)] (fun i => i % 2) 0 = [(0, 2), (4, 5)]
    ∧ itemCount (assignedTo [(0, 2), (2, 4), (4, 5)] (fun i => i % 2) 0) = 3
    ∧ itemCount (assignedTo [(0, 2), (2, 4), (4, 5)] (fun i => i % 2) 1) = 2
    ∧ itemCount [(0, 2), (2, 4), (4, 5)] = 3 + 2 := by
  exact ⟨fun i hi => mem_assignedTo_self cs w i hi, itemCount_partition cs w hw,
    by decide, by decide, by decide, by decide⟩

/-- Witness for C6 amended at the concrete scenario itself. -/
theorem roundRobin_assignment_witness :
    ((List.range 2).map
      (fun k => itemCount (assignedTo [(0, 2), (2, 4), (4, 5)] (fun i => i % 2) k))).sum
      = itemCount [(0, 2), (2, 4), (4, 5)] :=
  (roundRobin_assignment [(0, 2), (2, 4), (4, 5)] 2 (by decide)).2.1

/- ===================================================================
   C8: empty batches
   =================================================================== -/

theorem mergeWorkers_ok_nil :
    ∀ order : List Nat, mergeWorkers (order.map (fun _ => Except.ok [])) = Except.ok [] := by
  intro order
  induction order with
  | nil => rfl
  | cons w rest ih =>
    have hstep : mergeWorkers (List.map (fun _ => Except.ok []) (w :: rest))
        = match (Except.ok [] : Except String (List FireRecord)),
            mergeWorkers (List.map (fun _ => Except.ok []) rest) with
          | Except.ok xs, Except.ok ys => Except.ok (xs ++ ys)
          | Except.error e, _ => Except.error e
          | _, Except.error e => Except.error e := rfl
    rw [hstep, ih]
    rfl

/-- C8: a batch with zero work items completes normally with an empty
merged result under every schedule: loading an empty file list yields
`ok []` (not an error), and a value-range query over an empty record
collection returns the empty list under every strategy. -/
theorem empty_batch_trivial (fs : Filesystem) (mapRow : List String → FireRecord)
    (assign : Nat → Nat) (order : List Nat) (minValue maxValue : ℚ)
    (strategy : ParallelStrategy) (sch : Schedule) :
    loadWithCentralizedQueue fs mapRow [] assign order = Except.ok []
    ∧ FireData.queryByValueRange ⟨[], [], 0⟩ minValue maxValue strategy sch = [] := by
  constructor
  · show mergeWorkers (order.map
      (fun w => workerLoad fs mapRow (assignedTo [] assign w))) = Except.ok []
    have heq : (fun w => workerLoad fs mapRow (assignedTo ([] : List String) assign w))
        = (fun _ => Except.ok []) := by
      funext w
      rfl
    rw [heq, mergeWorkers_ok_nil]
  · cases strategy with
    | OPENMP =>
      refine Eq.trans (List.flatMap_congr ?_) (flatMap_const_nil sch.iters)
      intro i _
      rfl
    | CENTRALIZED_QUEUE =>
      refine Eq.trans (List.flatMap_congr ?_) (flatMap_const_nil sch.order)
      intro w _
      rfl
    | ROUND_ROBIN =>
      refine Eq.trans (List.flatMap_congr ?_) (flatMap_const_nil sch.order)
      intro w _
      rfl

/- ===================================================================
   C10: average-concentration aggregation
   =================================================================== -/

theorem avgVisited_perm (d : FireData) (pollutantType : String)
    (strategy : ParallelStrategy) (sch : Schedule)
    (hv : sch.Valid d.records.length) :
    (avgVisited d.records pollutantType strategy sch).Perm
      (d.records.flatMap (concIf pollutantType)) := by
  cases strategy with
  | OPENMP =>
    simp only [avgVisited]
    exact scanIters_perm (concIf pollutantType) d.records sch.iters hv.iters_perm
  | CENTRALIZED_QUEUE =>
    simp only [avgVisited]
    exact merged_flatMap_perm d.records (concIf pollutantType)
      (chunkSizeOf d.records.length sch.numWorkers) sch.numWorkers
      sch.assign sch.order (chunkSizeOf_pos _ _) hv.assign_lt hv.order_perm
  | ROUND_ROBIN =>
    simp only [avgVisited]
    exact merged_flatMap_perm d.records (concIf pollutantType)
      (chunkSizeOf d.records.length sch.numWorkers) sch.numWorkers
      (fun i => i % sch.numWorkers) sch.order (chunkSizeOf_pos _ _)
      (fun i => Nat.mod_lt i hv.workers_pos) hv.order_perm

/-- C10: under every strategy and well-formed schedule,
`calculateAverageConcentrationByPollutant` equals the sum of the matching
concentrations divided by their number when at least one record matches,
and exactly 0 when none does — the division is guarded by
`count > 0 ? sum / count : 0.0` and never performed with a zero
divisor. -/
theorem avgConcentration_guarded (d : FireData) (pollutantType : String)
    (strategy : ParallelStrategy) (sch : Schedule)
    (hv : sch.Valid d.records.length) :
    (d.calculateAverageConcentrationByPollutant pollutantType strategy sch
      = if (d.records.flatMap (concIf pollutantType)).length = 0 then 0
        else (d.records.flatMap (concIf pollutantType)).sum
          / ((d.records.flatMap (concIf pollutantType)).length : ℚ))
    ∧ ((∀ r ∈ d.records, ¬ r.pollutantType = pollutantType) →
        d.calculateAverageConcentrationByPollutant pollutantType strategy sch = 0) := by
  have hperm := avgVisited_perm d pollutantType strategy sch hv
  have hsum := hperm.sum_eq
  have hlen := hperm.length_eq
  have hmain : d.calculateAverageConcentrationByPollutant pollutantType strategy sch
      = if (d.records.flatMap (concIf pollutantType)).length = 0 then 0
        else (d.records.flatMap (concIf pollutantType)).sum
          / ((d.records.flatMap (concIf pollutantType)).length : ℚ) := by
    unfold FireData.calculateAverageConcentrationByPollutant
    simp only
    rw [hsum, hlen]
    by_cases h0 : (d.records.flatMap (concIf pollutantType)).length = 0
    · rw [if_pos h0, if_neg
        (show ¬ 0 < (d.records.flatMap (concIf pollutantType)).length by omega)]
    · have hpos : 0 < (d.records.flatMap (concIf pollutantType)).length :=
        Nat.pos_of_ne_zero h0
      rw [if_pos hpos, if_neg h0]
  refine ⟨hmain, fun hnone => ?_⟩
  have hnil : d.records.flatMap (concIf pollutantType) = [] := by
    have hall : ∀ r ∈ d.records, concIf pollutantType r = [] := by
      intro r hr
      simp [concIf, hnone r hr]
    exact (List.flatMap_congr hall).trans (flatMap_const_nil d.records)
  rw [hmain, hnil]
  rfl

/-- Witness for C10: on the sample collection no record carries pollutant
type OTHER, so the round-robin average is exactly 0. -/
theorem avgConcentration_guarded_witness :
    sampleFireData.calculateAverageConcentrationByPollutant "OTHER"
      ParallelStrategy.ROUND_ROBIN sampleSchedule = 0 :=
  (avgConcentration_guarded sampleFireData "OTHER" ParallelStrategy.ROUND_ROBIN
    sampleSchedule
    ⟨by decide, fun i => Nat.mod_lt i (by decide), by decide, by decide⟩).2
    (by decide)

/- ===================================================================
   C2: a work item that cannot be processed
   =================================================================== -/

/-- C2 counterexample: with files `a.csv`, `b.csv`, `c.csv` where `b.csv`
cannot be opened, the centralized-queue load does not skip `b.csv` and
continue — the `readFile` exception propagates out of the worker and the
batch aborts with the error instead of completing normally (the records
of `c.csv` are never merged). -/
theorem unreadable_file_aborts_batch :
    loadWithCentralizedQueue sampleFs constMapRow ["a.csv", "b.csv", "c.csv"]
      (fun _ => 0) [0]
      = Except.error ("Cannot open file: " ++ "b.csv") := by
  rfl

/-- C2 amended: a work item whose file cannot be opened is not skipped —
`CSVParser::readFile` throws and the worker installs no handler, so the
exception aborts the worker's batch and the work items queued after the
failing one are not processed (and the item is not retried); only a
malformed row (fewer than 13 columns) inside a readable file is skipped,
with processing continuing on the remaining rows. -/
theorem input_error_propagates (fs : Filesystem) (mapRow : List String → FireRecord)
    (f : String) (rest : List String) (hf : fs f = none)
    (row : List String) (rows : List (List String)) (hrow : row.length < 13) :
    workerLoad fs mapRow (f :: rest) = Except.error ("Cannot open file: " ++ f)
    ∧ parseRows mapRow (row :: rows) = parseRows mapRow rows := by
  constructor
  · unfold workerLoad readFile
    rw [hf]
  · unfold parseRows
    simp [List.filterMap_cons, hrow]

/-- Witness for C2 amended: `b.csv` does not open in the sample file
system, and a 0-column row is skipped. -/
theorem input_error_propagates_witness :
    workerLoad sampleFs constMapRow ["b.csv", "c.csv"]
        = Except.error ("Cannot open file: " ++ "b.csv")
    ∧ parseRows constMapRow ([] :: []) = parseRows constMapRow [] :=
  input_error_propagates sampleFs constMapRow "b.csv" ["c.csv"] (by rfl)
    [] [] (by decide)

end Mini1
